import Mathlib

/-!
Shallow embedding of `fragile/core/base_classes.py` (justindujardin/fragile).

Conventions of the embedding:
* numpy arrays are modelled by `NDArray`: a shape together with the row-major
  flattened data.  The dtype is elided (a single scalar type `Int` stands for
  every dtype); nothing in the verified properties depends on the scalar type.
* Python exceptions are modelled by `Except PyErr`; a function that cannot
  raise on the inputs the theorems quantify over is modelled as a total
  function.
* Python generators are modelled by the list of the items they yield.  A
  `return v` statement inside a generator function only sets the value carried
  by the final `StopIteration`; ordinary iteration discards it, so such a
  generator yields no items.
* `BaseStates.__init__` stores each name/array pair with `setattr`; attribute
  lookup on those data attributes is modelled by an association-list lookup.
  The bookkeeping fields (`_names`, `_attr_dict`, `_n_walkers`) and the class
  methods are also Python attributes of the instance, but no verified property
  concerns looking them up by those names, so the embedded `getattr` covers
  the data-attribute names only.
-/

/-- The kinds of Python exceptions the embedded code can raise. -/
inductive PyErr where
  | attributeError (msg : String)
  | typeError (msg : String)
  | valueError (msg : String)
  | indexError (msg : String)
  | notImplementedError
deriving DecidableEq

instance {ε α : Type} [DecidableEq ε] [DecidableEq α] :
    DecidableEq (Except ε α) := fun x y =>
  match x, y with
  | .ok a, .ok b =>
      if h : a = b then .isTrue (by subst h; rfl)
      else .isFalse fun hc => h (by injection hc)
  | .ok _, .error _ => .isFalse fun hc => by injection hc
  | .error _, .ok _ => .isFalse fun hc => by injection hc
  | .error e, .error f =>
      if h : e = f then .isTrue (by subst h; rfl)
      else .isFalse fun hc => h (by injection hc)

/-- A numpy ndarray: its shape and its row-major flattened data.
The invariant `data.length = shape.prod` is stated as `NDArray.wfA` where a
theorem needs it. -/
structure NDArray where
  shape : List Nat
  data : List Int
deriving DecidableEq

/-- A well-formed ndarray holds exactly `shape.prod` scalars. -/
def NDArray.wfA (a : NDArray) : Prop := a.data.length = a.shape.prod

instance (a : NDArray) : Decidable a.wfA := by
  unfold NDArray.wfA
  infer_instance

/-- Number of scalars in one slice along the leading axis. -/
def NDArray.rowSize (a : NDArray) : Nat := a.shape.tail.prod

/-- `a[i]`: numpy integer indexing along the leading axis, returning the
`i`-th slice (shape = trailing shape, data = the `i`-th row-major chunk). -/
def NDArray.row (a : NDArray) (i : Nat) : NDArray :=
  ⟨a.shape.tail, (a.data.drop (i * a.rowSize)).take a.rowSize⟩

/-- `np.concatenate(xs)` along axis 0: requires a non-empty list of arrays of
equal dimensionality (at least 1) agreeing on the trailing dimensions;
the result stacks the leading dimensions and joins the flattened data. -/
def npConcatenate (xs : List NDArray) : Except PyErr NDArray :=
  match xs with
  | [] => .error (.valueError "need at least one array to concatenate")
  | x :: rest =>
    if x.shape = [] then
      .error (.valueError "zero-dimensional arrays cannot be concatenated")
    else if rest.all fun y =>
        y.shape.length == x.shape.length && y.shape.tail == x.shape.tail then
      .ok ⟨(xs.map fun a => a.shape.headD 0).sum :: x.shape.tail,
           (xs.map NDArray.data).flatten⟩
    else
      .error (.valueError "all the input array dimensions must match exactly")

/-- `a.reshape(s)`: succeeds exactly when the element count is preserved. -/
def NDArray.reshape (a : NDArray) (s : List Nat) : Except PyErr NDArray :=
  if a.data.length == s.prod then .ok ⟨s, a.data⟩
  else .error (.valueError "cannot reshape")

/-- The instance state a `BaseStates.__init__` call leaves behind:
`self._names`, `self._attr_dict` (insertion-ordered, as a Python dict is) and
`self._n_walkers`.  The per-name `setattr` calls are represented by the
association list `_attr_dict` itself. -/
structure BaseStates where
  _names : List String
  _attr_dict : List (String × NDArray)
  _n_walkers : Nat
deriving DecidableEq

/-- `BaseStates.__init__(batch_size, **kwargs)` (the explicit-bindings path;
the `state_dict` path calls `params_to_arrays`, which on the base class
raises, see `BaseStates.params_to_arrays`).  The source stores the bindings
and the batch size verbatim: it performs no validation of the arrays' leading
dimensions against `batch_size`. -/
def BaseStates.init (batch_size : Nat) (kwargs : List (String × NDArray)) :
    BaseStates :=
  ⟨kwargs.map Prod.fst, kwargs, batch_size⟩

/-- Association-list lookup in `_attr_dict` (first binding wins, as a Python
dict built from unique keys has). -/
def BaseStates.lookup (c : BaseStates) (k : String) : Option NDArray :=
  (c._attr_dict.find? fun p => p.1 == k).map Prod.snd

/-- `getattr(self, k)` restricted to the data attributes set by `__init__`:
returns the stored array, or raises `AttributeError` when `k` names no data
attribute. -/
def BaseStates.getattrE (c : BaseStates) (k : String) : Except PyErr NDArray :=
  match c.lookup k with
  | some v => .ok v
  | none => .error (.attributeError k)

/-- Total variant of `getattr` used where the source iterates
`self._names` (every such name is a key of `_attr_dict` after `__init__`,
so the exceptional branch is unreachable there). -/
def BaseStates.getattrD (c : BaseStates) (k : String) : NDArray :=
  match c.lookup k with
  | some v => v
  | none => ⟨[], []⟩

/-- The index values `BaseStates.__getitem__` dispatches on:
a `str`, a `list` of `str`, or anything else. -/
inductive Key where
  | str (s : String)
  | list (l : List String)
  | other
deriving DecidableEq

/-- The value `BaseStates.__getitem__` returns: one array for a `str` index,
a list of arrays for a `list` index. -/
inductive ItemResult where
  | single (a : NDArray)
  | multi (l : List NDArray)
deriving DecidableEq

/-- The `str` branch of `BaseStates.__getitem__`:
`try: return getattr(self, item) except TypeError: raise TypeError(...)`.
Only a `TypeError` is caught and re-wrapped; any other exception (in
particular the `AttributeError` of a failed `getattr`) propagates. -/
def BaseStates.getitem_str (c : BaseStates) (item : String) :
    Except PyErr NDArray :=
  match c.getattrE item with
  | .ok v => .ok v
  | .error (.typeError _) =>
      .error (.typeError ("Tried to get an attribute with key " ++ item))
  | .error e => .error e

/-- `BaseStates.__getitem__`: dispatch on the index type; a `list` index maps
`getattr` over its elements (no exception handler on that branch); any other
index type raises `TypeError`. -/
def BaseStates.getitem (c : BaseStates) : Key → Except PyErr ItemResult
  | .str s => (c.getitem_str s).map ItemResult.single
  | .list l => (l.mapM c.getattrE).map ItemResult.multi
  | .other => .error (.typeError "item must be an instance of str or list")

/-- `BaseStates.n`: the stored walker count. -/
def BaseStates.n (c : BaseStates) : Nat := c._n_walkers

/-- `BaseStates.keys()`: the generator `(n for n in self._names)`, modelled by
the list of names it yields.  Each call builds the sequence afresh from
`self._names`. -/
def BaseStates.keys (c : BaseStates) : List String := c._names

/-- `BaseStates.get(key, default=None)`: returns the default when the key is
not among `keys()`, otherwise `self[key]`. -/
def BaseStates.get (c : BaseStates) (key : String)
    (default : Option NDArray) : Except PyErr (Option NDArray) :=
  if c.keys.contains key then (c.getitem_str key).map some
  else .ok default

/-- `BaseStates.vals()`: the generator `(self[name] for name in self._names)`,
modelled by the list of the arrays it yields (the lookups cannot fail for
names coming from `__init__`). -/
def BaseStates.vals (c : BaseStates) : List NDArray :=
  c._names.map c.getattrD

/-- `BaseStates.items()`: the generator
`((name, self[name]) for name in self._names)`. -/
def BaseStates.items (c : BaseStates) : List (String × NDArray) :=
  c._names.map fun k => (k, c.getattrD k)

/-- `BaseStates.itervals()`.  The body is a generator function (it contains
`yield`); for `self.n <= 1` the statement `return self.vals()` terminates the
generator at once, so nothing is yielded on that branch (the returned
generator is only the discarded `StopIteration` value).  Otherwise it yields,
for each walker index `i`, the tuple of the `i`-th slices of all attributes
in `_names` order. -/
def BaseStates.itervals (c : BaseStates) : List (List NDArray) :=
  if c.n ≤ 1 then []
  else (List.range c.n).map fun i => c.vals.map fun v => v.row i

/-- `BaseStates.iteritems()`: same shape as `itervals`, but the fallback
branch is guarded by `self.n < 1`, and each yielded item pairs the name tuple
with the slice tuple. -/
def BaseStates.iteritems (c : BaseStates) :
    List (List String × List NDArray) :=
  if c.n < 1 then []
  else (List.range c.n).map fun i => (c._names, c.vals.map fun v => v.row i)

/-- `BaseStates.split_states()`: a generator yielding, for each item of
`iteritems()`, `cls(batch_size=1, **dict(zip(k, v)))`. -/
def BaseStates.split_states (c : BaseStates) : List BaseStates :=
  c.iteritems.map fun kv => BaseStates.init 1 (kv.1.zip kv.2)

/-- One iteration of the `concat_states` loop body, for the attribute
`name`:
`np.concatenate([s[name] for s in states]).reshape((n_walkers,) +
states[0][name].shape)`, paired with the name. -/
def BaseStates.concat_attr (states : List BaseStates) (s0 : BaseStates)
    (n_walkers : Nat) (name : String) : Except PyErr (String × NDArray) := do
  let a0 ← s0.getitem_str name
  let arrs ← states.mapM fun (s : BaseStates) => s.getitem_str name
  let cat ← npConcatenate arrs
  let arr ← cat.reshape (n_walkers :: a0.shape)
  pure (name, arr)

/-- `BaseStates.concat_states(states)`: `n_walkers` is the sum of the inputs'
walker counts, the names come from `states[0]`, and each attribute is built
by `concat_attr`.  An empty input list raises `IndexError` at `states[0]`;
numpy errors from `concatenate`/`reshape` propagate. -/
def BaseStates.concat_states (states : List BaseStates) :
    Except PyErr BaseStates :=
  match states with
  | [] => .error (.indexError "list index out of range")
  | s0 :: _ =>
    let n_walkers := (states.map BaseStates._n_walkers).sum
    (s0.keys.mapM (BaseStates.concat_attr states s0 n_walkers)).map
      fun kw => BaseStates.init n_walkers kw

/-- `BaseStates.params_to_arrays` on the base class:
`raise NotImplementedError`. -/
def BaseStates.params_to_arrays (_c : BaseStates)
    (_param_dict : List (String × List Nat)) (_n_walkers : Nat) :
    Except PyErr (List (String × NDArray)) :=
  .error .notImplementedError

/-- `BaseStates.clone` on the base class: `raise NotImplementedError`
(the concrete clone of the derived container is modelled separately as
`States.clone`). -/
def BaseStates.clone (_c : BaseStates) (_will_clone : List Bool)
    (_compas_ix : List Nat) : Except PyErr BaseStates :=
  .error .notImplementedError

/-- `BaseStates.update` on the base class: `raise NotImplementedError`. -/
def BaseStates.update (_c : BaseStates) (_other : Option BaseStates)
    (_kwargs : List (String × NDArray)) : Except PyErr BaseStates :=
  .error .notImplementedError

/-- `BaseEnvironment` declares no instance state of its own. -/
structure BaseEnvironment where
deriving DecidableEq

/-- `BaseEnvironment.step` on the base class: `raise NotImplementedError`. -/
def BaseEnvironment.step (_e : BaseEnvironment) (_actions : NDArray)
    (_env_states : BaseStates) : Except PyErr BaseStates :=
  .error .notImplementedError

/-- `BaseEnvironment.reset` on the base class: `raise NotImplementedError`. -/
def BaseEnvironment.reset (_e : BaseEnvironment) (_batch_size : Nat)
    (_env_states : Option BaseStates) : Except PyErr BaseStates :=
  .error .notImplementedError

/-- `BaseModel` declares no instance state of its own. -/
structure BaseModel where
deriving DecidableEq

/-- `BaseModel.predict` on the base class: `raise NotImplementedError`. -/
def BaseModel.predict (_m : BaseModel) (_model_states _env_states
    _walkers_states : Option BaseStates) :
    Except PyErr (NDArray × BaseStates) :=
  .error .notImplementedError

/-- `BaseModel.calculate_dt` on the base class: `raise NotImplementedError`. -/
def BaseModel.calculate_dt (_m : BaseModel) (_model_states _env_states
    _walkers_states : Option BaseStates) :
    Except PyErr (NDArray × BaseStates) :=
  .error .notImplementedError

/-- The instance state `BaseWalkers.__init__` leaves behind. -/
structure BaseWalkers where
  model_state_params : List (String × List Nat)
  env_state_params : List (String × List Nat)
  n_walkers : Nat
  id_walkers : Option NDArray
  death_cond : Option NDArray
  _accumulate_rewards : Bool

/-- `BaseWalkers.__init__`: stores the parameters and initializes
`id_walkers` and `death_cond` to `None`. -/
def BaseWalkers.init (n_walkers : Nat)
    (env_state_params model_state_params : List (String × List Nat))
    (accumulate_rewards : Bool) : BaseWalkers :=
  ⟨model_state_params, env_state_params, n_walkers, none, none,
   accumulate_rewards⟩

/-- `BaseWalkers.balance` on the base class: `raise NotImplementedError`. -/
def BaseWalkers.balance (_w : BaseWalkers) : Except PyErr BaseWalkers :=
  .error .notImplementedError

/-- The fields `BaseSwarm.__init__` assigns before it calls `_init_swarm`. -/
structure BaseSwarm where
  _walkers : Option BaseWalkers
  _model : Option BaseModel
  _env : Option BaseEnvironment
  tree : Option Unit
  epoch : Nat

/-- The state a `BaseSwarm.__init__` call has built at the moment it invokes
`self._init_swarm`: every collaborator slot and `tree` hold `None`, and
`epoch` holds 0. -/
def BaseSwarm.initState : BaseSwarm := ⟨none, none, none, none, 0⟩

/-- `BaseSwarm._init_swarm` on the base class: `raise NotImplementedError`.
The factory callables and the float scale parameters are carried opaquely;
the base method never inspects them. -/
def BaseSwarm._init_swarm {α β γ δ : Type} (_s : BaseSwarm)
    (_env_callable : α) (_model_callable : β) (_walkers_callable : γ)
    (_n_walkers : Nat) (_reward_scale _dist_scale : δ) :
    Except PyErr BaseSwarm :=
  .error .notImplementedError

/-- `BaseSwarm.__init__`: assigns `None` to `_walkers`, `_model`, `_env` and
`tree` and `0` to `epoch`, then unconditionally calls `self._init_swarm`
with the constructor's arguments. -/
def BaseSwarm.init {α β γ δ : Type} (env : α) (model : β) (walkers : γ)
    (n_walkers : Nat) (reward_scale dist_scale : δ) :
    Except PyErr BaseSwarm :=
  BaseSwarm.initState._init_swarm env model walkers n_walkers
    reward_scale dist_scale

/-- Modelled from the spec: the concrete container's `clone` implementation
is not among the provided sources (`BaseStates.clone` in
`fragile/core/base_classes.py` only raises `NotImplementedError`; the
subclass that implements it lives outside the provided tree).  Per-array
clone following the spec sentence: "for every index i where `willClone[i]`
is true, overwrite **all** attributes of walker i with the corresponding
attributes of walker `companion[i]`, evaluated against the pre-clone
snapshot (clones must not chain/cascade within the same call); where false,
walker i is left untouched."  Every row of the result is read from the
snapshot `a`, so clones cannot cascade. -/
def States.cloneArray (a : NDArray) (n : Nat) (will_clone : List Bool)
    (compas_ix : List Nat) : NDArray :=
  ⟨a.shape,
   ((List.range n).map fun i =>
      if will_clone.getD i false then (a.row (compas_ix.getD i 0)).data
      else (a.row i).data).flatten⟩

/-- Modelled from the spec (see `States.cloneArray`): `clone` applies the
per-array clone to every attribute of the container, leaving the name set
and the walker count unchanged. -/
def States.clone (c : BaseStates) (will_clone : List Bool)
    (compas_ix : List Nat) : BaseStates :=
  ⟨c._names,
   c._attr_dict.map fun p =>
     (p.1, States.cloneArray p.2 c.n will_clone compas_ix),
   c._n_walkers⟩

/-- A concrete container shared by several witnesses: two walkers, two
attributes (`x` of per-walker shape `[2]`, `r` scalar per walker). -/
def exampleStates2 : BaseStates :=
  BaseStates.init 2 [("x", ⟨[2, 2], [0, 1, 2, 3]⟩), ("r", ⟨[2], [5, 6]⟩)]

/-- A concrete batch-size-1 container shared by several witnesses. -/
def exampleStates1 : BaseStates :=
  BaseStates.init 1 [("x", ⟨[1, 2], [7, 8]⟩)]

/-- A concrete batch-size-1 container used by the concat/split witnesses. -/
def exampleSplitA : BaseStates :=
  BaseStates.init 1 [("x", ⟨[1, 2], [0, 1]⟩), ("r", ⟨[1], [5]⟩)]

/-- A second concrete batch-size-1 container for the concat/split
witnesses. -/
def exampleSplitB : BaseStates :=
  BaseStates.init 1 [("x", ⟨[1, 2], [2, 3]⟩), ("r", ⟨[1], [6]⟩)]

/-- Trailing per-walker shapes of the attributes of `exampleSplitA` and
`exampleSplitB`. -/
def exampleSh (k : String) : List Nat := if k == "x" then [2] else []

/-- The container `concat_states` produces from batch-size-1 inputs with
per-attribute trailing shape `sh`: `(s0 :: rest).length` walkers, the names
of `s0`, and per name the stacked per-walker data under shape
`len :: 1 :: sh k` (the input arrays' own leading `1` survives the
reshape). -/
def concatResult (s0 : BaseStates) (rest : List BaseStates)
    (sh : String → List Nat) : BaseStates :=
  BaseStates.init (s0 :: rest).length
    (s0._names.map fun k =>
      (k, ⟨(s0 :: rest).length :: 1 :: sh k,
           ((s0 :: rest).map fun s => (s.getattrD k).data).flatten⟩))

/-- C7: every required collaborator operation that is not overridden raises
a NotImplemented-kind error immediately on the base class.  The embedded
methods are pure functions whose only result is the error, so no state is
mutated and nothing is retried. -/
theorem base_methods_raise_not_implemented :
    (∀ (c : BaseStates) pd nw,
       c.params_to_arrays pd nw = .error .notImplementedError) ∧
    (∀ (c : BaseStates) w ix, c.clone w ix = .error .notImplementedError) ∧
    (∀ (c : BaseStates) o kw, c.update o kw = .error .notImplementedError) ∧
    (∀ (e : BaseEnvironment) a s, e.step a s = .error .notImplementedError) ∧
    (∀ (e : BaseEnvironment) b s, e.reset b s = .error .notImplementedError) ∧
    (∀ (m : BaseModel) ms es ws,
       m.predict ms es ws = .error .notImplementedError) ∧
    (∀ (m : BaseModel) ms es ws,
       m.calculate_dt ms es ws = .error .notImplementedError) ∧
    (∀ w : BaseWalkers, w.balance = .error .notImplementedError) :=
  ⟨fun _ _ _ => rfl, fun _ _ _ => rfl, fun _ _ _ => rfl, fun _ _ _ => rfl,
   fun _ _ _ => rfl, fun _ _ _ _ => rfl, fun _ _ _ _ => rfl, fun _ => rfl⟩

/-- C10: directly constructing a `BaseSwarm` always fails: `__init__` first
builds the state with all collaborator fields and `tree` set to `None` and
the epoch counter 0 (`BaseSwarm.initState`), then unconditionally invokes
`_init_swarm` on it, which on the base class raises `NotImplementedError`;
so no construction completes, and at the moment `_init_swarm` runs the epoch
counter equals 0. -/
theorem baseswarm_init_always_fails :
    (∀ (α β γ δ : Type) (env : α) (model : β) (walkers : γ) (n : Nat)
       (rs ds : δ),
       BaseSwarm.init env model walkers n rs ds =
         .error .notImplementedError ∧
       BaseSwarm.init env model walkers n rs ds =
         BaseSwarm.initState._init_swarm env model walkers n rs ds) ∧
    BaseSwarm.initState.epoch = 0 ∧
    BaseSwarm.initState._walkers = none ∧
    BaseSwarm.initState._model = none ∧
    BaseSwarm.initState._env = none ∧
    BaseSwarm.initState.tree = none :=
  ⟨fun _ _ _ _ _ _ _ _ _ _ => ⟨rfl, rfl⟩, rfl, rfl, rfl, rfl, rfl⟩

/-- C3 counterexample: constructing a container from an explicit binding
whose leading dimension (3) disagrees with `batch_size` (2) raises nothing —
the embedded `__init__` is a total function because the source performs no
validation: the container is created, stores the array as given, and
reports 2 walkers. -/
theorem init_shape_mismatch_not_raised :
    (BaseStates.init 2 [("x", ⟨[3], [0, 1, 2]⟩)])._n_walkers = 2 ∧
    (BaseStates.init 2 [("x", ⟨[3], [0, 1, 2]⟩)]).lookup "x" =
      some ⟨[3], [0, 1, 2]⟩ ∧
    (NDArray.mk [3] [0, 1, 2]).shape.headD 0 ≠ 2 := by
  refine ⟨rfl, by decide, by decide⟩

/-- C3 amended: construction from explicit bindings performs no
leading-dimension validation at all: for every batch size and every set of
bindings — agreeing with `batch_size` or not — it succeeds, stores the
bindings verbatim in order, and reports `batch_size` walkers. -/
theorem init_stores_bindings_unchecked (batch_size : Nat)
    (kwargs : List (String × NDArray)) :
    (BaseStates.init batch_size kwargs)._n_walkers = batch_size ∧
    (BaseStates.init batch_size kwargs)._attr_dict = kwargs ∧
    (BaseStates.init batch_size kwargs)._names = kwargs.map Prod.fst :=
  ⟨rfl, rfl, rfl⟩

/-- C4 counterexample: `get` of an absent name with no default requested
(Python's implicit `default=None`) does not fail with any error: it silently
returns `None`. -/
theorem get_absent_returns_none :
    exampleStates2.get "missing" none = .ok none ∧
    exampleStates2.keys.contains "missing" = false := by decide

/-- Helper: zipping a list with its own image under `g` tags each element
with its image. -/
theorem list_zip_map_self {α β : Type} (g : α → β) (l : List α) :
    l.zip (l.map g) = l.map fun a => (a, g a) := by
  induction l with
  | nil => rfl
  | cons x xs ih => simp [ih]

/-- C6: `keys()`/`vals()`/`items()` enumerate the attribute set fixed at
construction, in insertion order, and agree with one another.  Each call
rebuilds its sequence afresh from `self._names` — the embedding of a
generator expression is the pure list of the items it yields, so every
re-invocation on the same container yields the same names in the same
order. -/
theorem keys_vals_items_fixed_order :
    (∀ (b : Nat) (kw : List (String × NDArray)),
       (BaseStates.init b kw).keys = kw.map Prod.fst) ∧
    (∀ c : BaseStates, c.keys = c._names ∧ c.vals = c.keys.map c.getattrD ∧
       c.items = c.keys.zip c.vals) := by
  refine ⟨fun b kw => rfl, fun c => ⟨rfl, rfl, ?_⟩⟩
  simp only [BaseStates.items, BaseStates.keys, BaseStates.vals,
    list_zip_map_self]

/-- Helper: a key that occurs among the stored names of a container whose
`_names` are exactly the keys of `_attr_dict` (the `__init__` invariant) is
found by `lookup`. -/
theorem lookup_isSome_of_mem_names (c : BaseStates) (key : String)
    (hwf : c._names = c._attr_dict.map Prod.fst)
    (hmem : c.keys.contains key = true) : ∃ v, c.lookup key = some v := by
  unfold BaseStates.lookup
  have hk : key ∈ c._attr_dict.map Prod.fst := by
    rw [← hwf]
    simpa using hmem
  obtain ⟨p, hp, hpk⟩ := List.mem_map.mp hk
  have : ∃ q ∈ c._attr_dict, (fun r => r.1 == key) q = true :=
    ⟨p, hp, by simp [hpk]⟩
  obtain ⟨q, hq⟩ := List.find?_isSome.mpr this |> Option.isSome_iff_exists.mp
  exact ⟨q.2, by rw [hq]; rfl⟩

/-- C4 amended: `get` never raises for an absent name: it silently returns
the caller's default (`None` when no default was passed).  For a present
name it returns the stored array (for any container satisfying the
`__init__` invariant that `_names` are the keys of `_attr_dict`). -/
theorem get_returns_default_or_stored (c : BaseStates) (key : String)
    (default : Option NDArray) :
    (c.keys.contains key = false → c.get key default = .ok default) ∧
    (c.keys.contains key = true →
      c._names = c._attr_dict.map Prod.fst →
      ∃ v, c.lookup key = some v ∧ c.get key default = .ok (some v)) := by
  constructor
  · intro habs
    unfold BaseStates.get
    rw [habs]
    rfl
  · intro hmem hwf
    obtain ⟨v, hv⟩ := lookup_isSome_of_mem_names c key hwf hmem
    refine ⟨v, hv, ?_⟩
    unfold BaseStates.get
    rw [hmem]
    simp only [if_true]
    rw [BaseStates.getitem_str, BaseStates.getattrE, hv]
    rfl

/-- Witness for `get_returns_default_or_stored` at concrete inputs. -/
theorem get_returns_default_or_stored_witness :
    exampleStates2.get "missing" (some ⟨[], []⟩) = .ok (some ⟨[], []⟩) ∧
    ∃ v, exampleStates2.lookup "x" = some v ∧
      exampleStates2.get "x" none = .ok (some v) :=
  ⟨(get_returns_default_or_stored exampleStates2 "missing"
      (some ⟨[], []⟩)).1 (by decide),
   (get_returns_default_or_stored exampleStates2 "x" none).2
      (by decide) (by decide)⟩

/-- C9: for a `str` index, `__getitem__` can never surface the re-wrapped
`TypeError` ("Tried to get an attribute with key ..."): the embedded
`getattr` raises only `AttributeError`, which the `except TypeError` handler
does not catch, so for an absent name the `AttributeError` propagates
unmodified to the caller; and an index that is neither `str` nor `list`
always raises `TypeError`. -/
theorem getitem_attribute_error_propagates (c : BaseStates) (key : String) :
    (c.keys.contains key = false →
      c._names = c._attr_dict.map Prod.fst →
      c.getitem (.str key) = .error (.attributeError key)) ∧
    (∀ msg, c.getitem (.str key) ≠ .error (.typeError msg)) ∧
    c.getitem .other =
      .error (.typeError "item must be an instance of str or list") := by
  refine ⟨?_, ?_, rfl⟩
  · intro habs hwf
    have hfind : c._attr_dict.find? (fun p => p.1 == key) = none := by
      rw [List.find?_eq_none]
      intro p hp
      simp only [beq_iff_eq]
      intro hpk
      have hcon : c.keys.contains key = true := by
        rw [BaseStates.keys, hwf]
        simpa using List.mem_map.mpr ⟨p, hp, hpk⟩
      rw [habs] at hcon
      exact Bool.noConfusion hcon
    have hnone : c.lookup key = none := by
      rw [BaseStates.lookup, hfind]
      rfl
    rw [BaseStates.getitem, BaseStates.getitem_str, BaseStates.getattrE,
      hnone]
    rfl
  · intro msg
    rw [BaseStates.getitem, BaseStates.getitem_str, BaseStates.getattrE]
    cases hl : c.lookup key <;> simp [Except.map]

/-- Witness for `getitem_attribute_error_propagates` at concrete inputs. -/
theorem getitem_attribute_error_propagates_witness :
    exampleStates2.getitem (.str "missing") =
      .error (.attributeError "missing") ∧
    exampleStates2.getitem (.str "missing") ≠
      .error (.typeError "Tried to get an attribute with key missing") :=
  ⟨(getitem_attribute_error_propagates exampleStates2 "missing").1
      (by decide) (by decide),
   (getitem_attribute_error_propagates exampleStates2 "missing").2.1 _⟩

/-- C8 counterexample: for a container with one walker, `itervals()` yields
no items at all — not the whole unsliced attribute arrays the claim
describes.  The `return self.vals()` fallback runs inside a generator
function, so the returned value is only the discarded `StopIteration`
payload, and iteration sees an empty sequence; the claimed behavior would
have yielded the container's (non-empty) sequence of attribute arrays. -/
theorem itervals_batch_one_yields_nothing :
    exampleStates1.itervals = [] ∧ exampleStates1.vals ≠ [] ∧
    exampleStates1.n = 1 := by decide

/-- C8 amended: for `n ≥ 2`, `itervals` yields exactly `n` tuples, the
`i`-th holding the `i`-th leading-axis slice of every attribute in key
order; for `n ≤ 1` it yields nothing (the fallback's return value is
discarded by generator semantics).  `iteritems` slices per walker for every
`n ≥ 1`, yielding `(names, slices)` pairs, and yields nothing for
`n < 1`. -/
theorem itervals_iteritems_by_walker (c : BaseStates) :
    (2 ≤ c.n →
      c.itervals = (List.range c.n).map fun i => c.vals.map fun v => v.row i) ∧
    (c.n ≤ 1 → c.itervals = []) ∧
    (1 ≤ c.n →
      c.iteritems =
        (List.range c.n).map fun i => (c.keys, c.vals.map fun v => v.row i)) ∧
    (c.n = 0 → c.iteritems = []) := by
  refine ⟨fun h => ?_, fun h => ?_, fun h => ?_, fun h => ?_⟩
  · rw [BaseStates.itervals, if_neg (by omega)]
  · rw [BaseStates.itervals, if_pos h]
  · rw [BaseStates.iteritems, if_neg (by omega)]
    rfl
  · rw [BaseStates.iteritems, if_pos (by omega)]

/-- Witness for `itervals_iteritems_by_walker` at concrete inputs. -/
theorem itervals_iteritems_by_walker_witness :
    exampleStates2.itervals =
      [[⟨[2], [0, 1]⟩, ⟨[], [5]⟩], [⟨[2], [2, 3]⟩, ⟨[], [6]⟩]] ∧
    exampleStates1.itervals = [] ∧
    exampleStates1.iteritems = [(["x"], [⟨[2], [7, 8]⟩])] :=
  ⟨((itervals_iteritems_by_walker exampleStates2).1 (by decide)).trans
      (by decide),
   (itervals_iteritems_by_walker exampleStates1).2.1 (by decide),
   ((itervals_iteritems_by_walker exampleStates1).2.2.1 (by decide)).trans
      (by decide)⟩

/-- Helper: in the flattening of equal-length chunks, dropping `i*m` and
taking `m` recovers the `i`-th chunk. -/
theorem flatten_chunk {α : Type} (l : List (List α)) (m : Nat)
    (hlen : ∀ x ∈ l, x.length = m) : ∀ i, i < l.length →
    (l.flatten.drop (i * m)).take m = l.getD i [] := by
  induction l with
  | nil => intro i hi; cases hi
  | cons x xs ih =>
    intro i hi
    have hx : x.length = m := hlen x (by simp)
    cases i with
    | zero =>
      simp only [List.flatten_cons, Nat.zero_mul, List.drop_zero,
        List.getD_cons_zero]
      rw [← hx, List.take_left]
    | succ j =>
      have hdrop : (x ++ xs.flatten).drop ((j + 1) * m) =
          xs.flatten.drop (j * m) := by
        have h1 : (j + 1) * m = m + j * m := by ring
        have h2 : (x ++ xs.flatten).drop m = xs.flatten := by
          rw [← hx, List.drop_left]
        rw [h1, ← List.drop_drop, h2]
      rw [List.flatten_cons, hdrop, List.getD_cons_succ]
      exact ih (fun y hy => hlen y (by simp [hy])) j (by simpa using hi)

/-- Helper: the `i`-th row of an array assembled by stacking equal-length
chunks under a leading dimension is the `i`-th chunk. -/
theorem row_of_flatten (h : Nat) (t : List Nat) (chunks : List (List Int))
    (hlen : ∀ x ∈ chunks, x.length = t.prod) (i : Nat)
    (hi : i < chunks.length) :
    (NDArray.mk (h :: t) chunks.flatten).row i = ⟨t, chunks.getD i []⟩ := by
  unfold NDArray.row NDArray.rowSize
  simp only [List.tail_cons]
  rw [flatten_chunk chunks t.prod hlen i hi]

/-- Helper: a row taken strictly inside the data has exactly `rowSize`
scalars. -/
theorem row_data_length (a : NDArray) (j : Nat)
    (hj : (j + 1) * a.rowSize ≤ a.data.length) :
    (a.row j).data.length = a.rowSize := by
  unfold NDArray.row
  simp only [List.length_take, List.length_drop]
  have hsplit : (j + 1) * a.rowSize = j * a.rowSize + a.rowSize := by ring
  omega

/-- Helper: `mapM` over `Except` succeeds pointwise when every element
does. -/
theorem mapM_ok_of_forall {α β : Type} (l : List α)
    (f : α → Except PyErr β) (g : α → β)
    (h : ∀ x ∈ l, f x = .ok (g x)) : l.mapM f = .ok (l.map g) := by
  induction l with
  | nil => rfl
  | cons x xs ih =>
    rw [List.mapM_cons, h x (by simp),
      ih fun y hy => h y (by simp [hy])]
    rfl

/-- Helper: summing a function that is constantly `m` over a list. -/
theorem sum_map_const {α : Type} (l : List α) (g : α → Nat) (m : Nat)
    (h : ∀ x ∈ l, g x = m) : (l.map g).sum = l.length * m := by
  induction l with
  | nil => simp
  | cons x xs ih =>
    simp only [List.map_cons, List.sum_cons, List.length_cons,
      h x (by simp), ih fun y hy => h y (by simp [hy])]
    ring

/-- Helper: concatenating arrays that all have the batch-1 shape `1 :: t`
stacks them into one array of leading dimension `len` over the same trailing
shape. -/
theorem npConcatenate_batch1 (x : NDArray) (r : List NDArray)
    (t : List Nat) (hsh : ∀ y ∈ x :: r, y.shape = 1 :: t) :
    npConcatenate (x :: r) =
      .ok ⟨(x :: r).length :: t, ((x :: r).map NDArray.data).flatten⟩ := by
  have hx : x.shape = 1 :: t := hsh x (by simp)
  simp only [npConcatenate]
  rw [if_neg (by simp [hx])]
  have hall : r.all (fun y =>
      y.shape.length == x.shape.length && y.shape.tail == x.shape.tail) =
      true := by
    rw [List.all_eq_true]
    intro y hy
    rw [hsh y (by simp [hy]), hx]
    simp
  rw [if_pos hall]
  have hsum : ((x :: r).map fun a => a.shape.headD 0).sum =
      (x :: r).length * 1 :=
    sum_map_const _ _ 1 fun y hy => by rw [hsh y hy]; rfl
  rw [hx]
  simp only [List.tail_cons]
  congr 1
  rw [hsum]
  simp

/-- Helper: looking up `k` in a container built from bindings
`(k, F k)` over names containing `k` yields `F k`. -/
theorem lookup_init_map (b : Nat) (names : List String)
    (F : String → NDArray) (k : String) (hk : k ∈ names) :
    (BaseStates.init b (names.map fun nm => (nm, F nm))).lookup k =
      some (F k) := by
  unfold BaseStates.init BaseStates.lookup
  simp only
  induction names with
  | nil => cases hk
  | cons x xs ih =>
    simp only [List.map_cons, List.find?_cons]
    cases hx : x == k
    · have hk' : k ∈ xs := by
        rcases List.mem_cons.mp hk with rfl | h
        · simp at hx
        · exact h
      exact ih hk'
    · have hxk : x = k := by simpa using hx
      subst hxk
      rfl

/-- Helper: mapping a key-preserving transformation over an association list
commutes with `find?` on the key. -/
theorem find_map_keep_fst {α β γ : Type} [BEq α] (l : List (α × β))
    (g : α × β → γ) (k : α) :
    ((l.map fun p => (p.1, g p)).find? fun q => q.1 == k) =
      (l.find? fun p => p.1 == k).map fun p => (p.1, g p) := by
  induction l with
  | nil => rfl
  | cons p ps ih =>
    cases hp : p.1 == k
    · simp [List.find?_cons, hp, ih]
    · simp [List.find?_cons, hp]

/-- Helper: in an association list with pairwise-distinct keys, `find?` on a
member's key returns that member. -/
theorem find_self_of_nodup {β : Type} (l : List (String × β))
    (hnd : (l.map Prod.fst).Nodup) (p : String × β) (hp : p ∈ l) :
    (l.find? fun q => q.1 == p.1) = some p := by
  induction l with
  | nil => cases hp
  | cons q qs ih =>
    rcases List.mem_cons.mp hp with rfl | hp
    · simp [List.find?_cons]
    · have hq : q.1 ≠ p.1 := by
        intro he
        have : q.1 ∈ qs.map Prod.fst :=
          List.mem_map.mpr ⟨p, hp, he.symm⟩
        exact (List.nodup_cons.mp (by simpa using hnd)).1 this
      have hbeq : (q.1 == p.1) = false := by simpa using hq
      simp only [List.find?_cons, hbeq]
      exact ih (List.nodup_cons.mp (by simpa using hnd)).2 hp

/-- Helper: `getD` on a mapped list at an in-range index. -/
theorem getD_map_get {α β : Type} (l : List α) (f : α → β) (i : Nat)
    (d : β) (hi : i < l.length) :
    (l.map f).getD i d = f (l.get ⟨i, hi⟩) := by
  rw [List.getD_eq_getD_get?, List.get?_map]
  rw [List.get?_eq_get hi]
  rfl

/-- Helper: `getD` on a function mapped over `List.range`. -/
theorem getD_range_map {α : Type} (n i : Nat) (f : Nat → α) (d : α)
    (hi : i < n) : ((List.range n).map f).getD i d = f i := by
  rw [getD_map_get (List.range n) f i d (by simpa using hi)]
  congr 1
  simp

/-- C1 (modelled from the spec, see `States.cloneArray`): after
`clone(will_clone, compas_ix)` on a container whose attributes all have the
walker count as leading dimension, the walker count and name set are
unchanged, and for **every** attribute and every walker index `i < n`: where
`will_clone[i]` is true, walker `i`'s post-clone slice equals walker
`compas_ix[i]`'s **pre-clone** slice, and where false, walker `i`'s slice is
bitwise unchanged.  Every right-hand side slices the pre-clone array `a`, so
clones cannot chain or cascade within one call. -/
theorem states_clone_invariant (c : BaseStates) (will : List Bool)
    (compas : List Nat)
    (hwill : will.length = c.n) (hcomp : compas.length = c.n)
    (hix : ∀ i, i < c.n → compas.getD i 0 < c.n)
    (hwf : ∀ p ∈ c._attr_dict, p.2.wfA ∧ p.2.shape.head? = some c.n) :
    (States.clone c will compas).n = c.n ∧
    (States.clone c will compas)._names = c._names ∧
    ∀ k a, c.lookup k = some a →
      (States.clone c will compas).lookup k =
        some (States.cloneArray a c.n will compas) ∧
      ∀ i, i < c.n →
        (States.cloneArray a c.n will compas).row i =
          (if will.getD i false then a.row (compas.getD i 0)
           else a.row i) := by
  refine ⟨rfl, rfl, fun k a hka => ?_⟩
  obtain ⟨p, hfind, hpa⟩ :
      ∃ p, (c._attr_dict.find? fun q => q.1 == k) = some p ∧ p.2 = a := by
    rcases hf : c._attr_dict.find? fun q => q.1 == k with _ | p
    · rw [BaseStates.lookup, hf] at hka
      exact absurd hka (by simp)
    · rw [BaseStates.lookup, hf] at hka
      exact ⟨p, hf, by simpa using hka⟩
  have hpmem : p ∈ c._attr_dict := List.mem_of_find?_eq_some hfind
  obtain ⟨hwfa, hhead⟩ := hwf p hpmem
  subst hpa
  constructor
  · rw [States.clone, BaseStates.lookup]
    simp only
    rw [find_map_keep_fst c._attr_dict
      (fun q => States.cloneArray q.2 c.n will compas) k, hfind]
    rfl
  · obtain ⟨t, hshape⟩ : ∃ t, p.2.shape = c.n :: t := by
      rcases hs : p.2.shape with _ | ⟨h0, t0⟩
      · rw [hs] at hhead
        exact absurd hhead (by simp)
      · rw [hs] at hhead
        have hh0 : h0 = c.n := by simpa using hhead
        subst hh0
        exact ⟨t0, rfl⟩
    intro i hi
    have hrowlen : ∀ j, j < c.n → (p.2.row j).data.length = t.prod := by
      intro j hj
      have hrs : p.2.rowSize = t.prod := by
        rw [NDArray.rowSize, hshape]
        rfl
      have hlen : p.2.data.length = c.n * t.prod := by
        rw [hwfa, hshape]
        simp [List.prod_cons]
      rw [← hrs]
      apply row_data_length
      rw [hrs, hlen]
      exact Nat.mul_le_mul_right t.prod hj
    have hchunks : ∀ x ∈ (List.range c.n).map fun j =>
        if will.getD j false then (p.2.row (compas.getD j 0)).data
        else (p.2.row j).data, x.length = t.prod := by
      intro x hx
      obtain ⟨j, hj, hfx⟩ := List.mem_map.mp hx
      have hjn : j < c.n := List.mem_range.mp hj
      rcases hw : will.getD j false
      · rw [← hfx, hw]
        simp only [if_neg Bool.false_ne_true]
        exact hrowlen j hjn
      · rw [← hfx, hw]
        simp only [if_pos rfl]
        exact hrowlen (compas.getD j 0) (hix j hjn)
    have hrow : (States.cloneArray p.2 c.n will compas).row i =
        ⟨t, ((List.range c.n).map fun j =>
          if will.getD j false then (p.2.row (compas.getD j 0)).data
          else (p.2.row j).data).getD i []⟩ := by
      rw [States.cloneArray, hshape]
      exact row_of_flatten c.n t _ hchunks i (by simpa using hi)
    rw [hrow, getD_range_map c.n i _ [] hi]
    have hta : ∀ j : Nat, p.2.row j = ⟨t, (p.2.row j).data⟩ := by
      intro j
      rw [NDArray.row, NDArray.rowSize, hshape]
      rfl
    by_cases hw : will.getD i false = true
    · simp only [if_pos hw]
      exact (hta (compas.getD i 0)).symm
    · simp only [if_neg hw]
      exact (hta i).symm

/-- Witness for `states_clone_invariant` at concrete inputs: two walkers,
`will_clone = [true, false]`, companions `[1, 0]`; walker 0 takes walker 1's
pre-clone slice, walker 1 keeps its own. -/
theorem states_clone_invariant_witness :
    (States.clone exampleStates2 [true, false] [1, 0]).lookup "x" =
      some ⟨[2, 2], [2, 3, 2, 3]⟩ ∧
    (States.cloneArray ⟨[2, 2], [0, 1, 2, 3]⟩ 2 [true, false] [1, 0]).row 0 =
      (NDArray.mk [2, 2] [0, 1, 2, 3]).row 1 ∧
    (States.cloneArray ⟨[2, 2], [0, 1, 2, 3]⟩ 2 [true, false] [1, 0]).row 1 =
      (NDArray.mk [2, 2] [0, 1, 2, 3]).row 1 := by
  have T := states_clone_invariant exampleStates2 [true, false] [1, 0]
    (by decide) (by decide) (by decide) (by decide)
  obtain ⟨hlook, hrows⟩ := T.2.2 "x" ⟨[2, 2], [0, 1, 2, 3]⟩ (by decide)
  exact ⟨hlook.trans (by decide), (hrows 0 (by decide)).trans (by decide),
    (hrows 1 (by decide)).trans (by decide)⟩

/-- Helper: bind on a successful `Except` applies the continuation. -/
theorem except_ok_bind {ε α β : Type} (a : α) (f : α → Except ε β) :
    (Except.ok a >>= f) = f a := rfl

/-- Helper: map on a successful `Except` applies the function. -/
theorem except_ok_map {ε α β : Type} (a : α) (f : α → β) :
    (Except.ok a : Except ε α).map f = .ok (f a) := rfl

/-- C5 counterexample: `concat_states` on two perfectly ordinary two-walker
containers does not return a container at all: the concatenated data (4
scalars) cannot be reshaped to `(n_walkers,) + states[0]["x"].shape =
(4, 2)` (8 scalars), so numpy's `reshape` raises `ValueError`.  This
refutes the claim's "for every non-empty list of containers"; the
guarantee does hold on batch-size-1 inputs (`concat_states_batch1_spec`). -/
theorem concat_states_not_general_cex :
    BaseStates.concat_states
      [BaseStates.init 2 [("x", ⟨[2], [0, 1]⟩)],
       BaseStates.init 2 [("x", ⟨[2], [2, 3]⟩)]] =
      .error (.valueError "cannot reshape") := by decide

/-- Helper: the loop body of `concat_states` on batch-size-1 inputs builds
exactly the stacked attribute of `concatResult`. -/
theorem concat_attr_ok (s0 : BaseStates) (rest : List BaseStates)
    (sh : String → List Nat) (nw : Nat) (hnw : nw = (s0 :: rest).length)
    (hsh : ∀ s ∈ s0 :: rest, ∀ k ∈ s0._names,
      ∃ a, s.lookup k = some a ∧ a.shape = 1 :: sh k ∧
        a.data.length = (sh k).prod)
    (k : String) (hk : k ∈ s0._names) :
    BaseStates.concat_attr (s0 :: rest) s0 nw k =
      .ok (k, ⟨nw :: 1 :: sh k,
        ((s0 :: rest).map fun s => (s.getattrD k).data).flatten⟩) := by
  have hall : ∀ s ∈ s0 :: rest,
      s.getitem_str k = .ok (s.getattrD k) ∧
      (s.getattrD k).shape = 1 :: sh k ∧
      (s.getattrD k).data.length = (sh k).prod := by
    intro s hs
    obtain ⟨a, hal, hash, halen⟩ := hsh s hs k hk
    have hd : s.getattrD k = a := by rw [BaseStates.getattrD, hal]
    refine ⟨?_, by rw [hd]; exact hash, by rw [hd]; exact halen⟩
    rw [BaseStates.getitem_str, BaseStates.getattrE, hal, hd]
  have ha0 := (hall s0 (by simp)).1
  have harrs : (s0 :: rest).mapM
      (fun s : BaseStates => s.getitem_str k) =
      .ok ((s0 :: rest).map fun s => s.getattrD k) :=
    mapM_ok_of_forall _ _ _ fun s hs => (hall s hs).1
  have hshapes : ∀ y ∈ (s0.getattrD k) ::
      (rest.map fun s => s.getattrD k), y.shape = 1 :: sh k := by
    intro y hy
    rw [← List.map_cons (fun s => s.getattrD k) s0 rest] at hy
    obtain ⟨s, hs, rfl⟩ := List.mem_map.mp hy
    exact (hall s hs).2.1
  have hcat : npConcatenate ((s0 :: rest).map fun s => s.getattrD k) =
      .ok ⟨nw :: sh k,
        ((s0 :: rest).map fun s => (s.getattrD k).data).flatten⟩ := by
    rw [List.map_cons, npConcatenate_batch1 _ _ (sh k) hshapes]
    have hlen' : (s0.getattrD k ::
        (rest.map fun s => s.getattrD k)).length = nw := by
      simp [hnw]
    have hdata' : List.map NDArray.data (s0.getattrD k ::
        (rest.map fun s => s.getattrD k)) =
        (s0 :: rest).map fun s => (s.getattrD k).data := by
      rw [← List.map_cons (fun s => s.getattrD k) s0 rest, List.map_map]
      rfl
    rw [hlen', hdata']
  have hD : (((s0 :: rest).map fun s =>
      (s.getattrD k).data).flatten).length =
      (s0 :: rest).length * (sh k).prod := by
    rw [List.length_flatten, List.map_map]
    exact sum_map_const _ _ _ fun s hs => (hall s hs).2.2
  have hresh : (NDArray.mk (nw :: sh k)
      (((s0 :: rest).map fun s => (s.getattrD k).data).flatten)).reshape
        (nw :: (s0.getattrD k).shape) =
      .ok ⟨nw :: 1 :: sh k,
        ((s0 :: rest).map fun s => (s.getattrD k).data).flatten⟩ := by
    rw [(hall s0 (by simp)).2.1, NDArray.reshape,
      if_pos (beq_iff_eq.mpr (by
        show (((s0 :: rest).map fun s => (s.getattrD k).data).flatten).length
          = (nw :: 1 :: sh k).prod
        rw [hD, hnw]
        simp [List.prod_cons]))]
  rw [BaseStates.concat_attr]
  simp only [ha0, except_ok_bind, harrs, hcat, hresh]
  rfl

/-- Helper: on batch-size-1 inputs, `concat_states` returns exactly
`concatResult`. -/
theorem concat_states_batch1_eq (s0 : BaseStates) (rest : List BaseStates)
    (sh : String → List Nat)
    (hn1 : ∀ s ∈ s0 :: rest, s._n_walkers = 1)
    (hsh : ∀ s ∈ s0 :: rest, ∀ k ∈ s0._names,
      ∃ a, s.lookup k = some a ∧ a.shape = 1 :: sh k ∧
        a.data.length = (sh k).prod) :
    BaseStates.concat_states (s0 :: rest) =
      .ok (concatResult s0 rest sh) := by
  have hnw : ((s0 :: rest).map BaseStates._n_walkers).sum =
      (s0 :: rest).length := by
    rw [sum_map_const _ _ 1 hn1, Nat.mul_one]
  rw [BaseStates.concat_states]
  simp only [hnw]
  rw [mapM_ok_of_forall s0.keys _
    (fun k => (k, ⟨(s0 :: rest).length :: 1 :: sh k,
      ((s0 :: rest).map fun s => (s.getattrD k).data).flatten⟩))
    (fun k hk => concat_attr_ok s0 rest sh _ rfl hsh k hk)]
  rw [except_ok_map]
  rfl

/-- Helper: the keys of an association list built by tagging each name. -/
theorem map_fst_pair {β : Type} (names : List String) (F : String → β) :
    (names.map fun k => (k, F k)).map Prod.fst = names := by
  induction names with
  | nil => rfl
  | cons x xs ih => simp [ih]

/-- C5 amended: for every non-empty list of containers whose inputs are
batch-size-1 (container count 1, per-attribute leading dimension 1) and
agree with the first input's attribute names and per-attribute shapes,
`concat_states` returns a single container whose walker count equals the
sum of the inputs' walker counts, whose attribute names are those of the
first input, and where each attribute stacks the inputs' per-walker data in
input order (under shape `len :: 1 :: trailing`, the reshape keeping the
inputs' own leading `1`). -/
theorem concat_states_batch1_spec (s0 : BaseStates)
    (rest : List BaseStates) (sh : String → List Nat)
    (hn1 : ∀ s ∈ s0 :: rest, s._n_walkers = 1)
    (hsh : ∀ s ∈ s0 :: rest, ∀ k ∈ s0._names,
      ∃ a, s.lookup k = some a ∧ a.shape = 1 :: sh k ∧
        a.data.length = (sh k).prod) :
    ∃ c, BaseStates.concat_states (s0 :: rest) = .ok c ∧
      c.n = ((s0 :: rest).map BaseStates.n).sum ∧
      c._names = s0._names ∧
      ∀ k ∈ s0._names, c.lookup k =
        some ⟨(s0 :: rest).length :: 1 :: sh k,
              ((s0 :: rest).map fun s => (s.getattrD k).data).flatten⟩ := by
  refine ⟨_, concat_states_batch1_eq s0 rest sh hn1 hsh, ?_, ?_, ?_⟩
  · show (s0 :: rest).length = _
    rw [sum_map_const _ BaseStates.n 1 fun s hs => hn1 s hs, Nat.mul_one]
  · show List.map Prod.fst _ = s0._names
    exact map_fst_pair s0._names _
  · intro k hk
    exact lookup_init_map _ s0._names _ k hk

/-- Witness for `concat_states_batch1_spec` at concrete inputs. -/
theorem concat_states_batch1_spec_witness :
    ∃ c, BaseStates.concat_states [exampleSplitA, exampleSplitB] = .ok c ∧
      c.n = 2 ∧ c._names = ["x", "r"] ∧
      c.lookup "x" = some ⟨[2, 1, 2], [0, 1, 2, 3]⟩ := by
  obtain ⟨c, hc, hn, hnm, hlk⟩ :=
    concat_states_batch1_spec exampleSplitA [exampleSplitB] exampleSh
      (by decide)
      (by
        intro s hs k hk
        have hs' : s = exampleSplitA ∨ s = exampleSplitB := by simpa using hs
        have hk' : k = "x" ∨ k = "r" := by
          simpa [exampleSplitA, BaseStates.init] using hk
        rcases hs' with rfl | rfl <;> rcases hk' with rfl | rfl <;>
          exact ⟨_, rfl, by decide, by decide⟩)
  exact ⟨c, hc, hn.trans (by decide), hnm.trans (by decide),
    (hlk "x" (by decide)).trans (by decide)⟩

/-- Helper: `getD` agrees with `get` inside the range. -/
theorem getD_get {α : Type} (l : List α) (i : Nat) (d : α)
    (hi : i < l.length) : l.getD i d = l.get ⟨i, hi⟩ := by
  induction l generalizing i with
  | nil => cases hi
  | cons x xs ih =>
    cases i with
    | zero => rfl
    | succ j => exact ih j (by simpa using hi)

/-- Helper: `getD` of a mapped list inside the range. -/
theorem getD_map_getD {α β : Type} (l : List α) (f : α → β) (i : Nat)
    (d : β) (dd : α) (hi : i < l.length) :
    (l.map f).getD i d = f (l.getD i dd) := by
  rw [getD_map_get l f i d hi, getD_get l i dd hi]

/-- C2: for every non-empty list of batch-size-1 containers that share the
first input's attribute names (same order, no duplicates) and per-attribute
shapes, `split_states` after `concat_states` recovers exactly the original
containers in the original input order: split is the inverse of concat on
batch-size-1 containers. -/
theorem concat_then_split_recovers (s0 : BaseStates)
    (rest : List BaseStates) (sh : String → List Nat)
    (hnd : s0._names.Nodup)
    (hn1 : ∀ s ∈ s0 :: rest, s._n_walkers = 1)
    (hnames : ∀ s ∈ s0 :: rest, s._names = s0._names)
    (hwf : ∀ s ∈ s0 :: rest, s._names = s._attr_dict.map Prod.fst)
    (hsh : ∀ s ∈ s0 :: rest, ∀ k ∈ s0._names,
      ∃ a, s.lookup k = some a ∧ a.shape = 1 :: sh k ∧
        a.data.length = (sh k).prod) :
    ∃ c, BaseStates.concat_states (s0 :: rest) = .ok c ∧
      c.split_states = s0 :: rest := by
  refine ⟨_, concat_states_batch1_eq s0 rest sh hn1 hsh, ?_⟩
  have hAll : ∀ s ∈ s0 :: rest, ∀ k ∈ s0._names,
      s.lookup k = some (s.getattrD k) ∧
      (s.getattrD k).shape = 1 :: sh k ∧
      (s.getattrD k).data.length = (sh k).prod := by
    intro s hs k hk
    obtain ⟨a, hal, hash, halen⟩ := hsh s hs k hk
    have hd : s.getattrD k = a := by rw [BaseStates.getattrD, hal]
    rw [hd]
    exact ⟨hal, hash, halen⟩
  have hcnames : (concatResult s0 rest sh)._names = s0._names :=
    map_fst_pair s0._names _
  have hcn : (concatResult s0 rest sh).n = (s0 :: rest).length := rfl
  have hvals : (concatResult s0 rest sh).vals =
      s0._names.map fun k =>
        (⟨(s0 :: rest).length :: 1 :: sh k,
          ((s0 :: rest).map fun s => (s.getattrD k).data).flatten⟩ :
          NDArray) := by
    rw [BaseStates.vals, hcnames]
    apply List.map_congr_left
    intro k hk
    rw [BaseStates.getattrD, concatResult,
      lookup_init_map _ s0._names _ k hk]
  have key : ∀ i, i < (s0 :: rest).length →
      BaseStates.init 1
        (s0._names.zip ((concatResult s0 rest sh).vals.map
          fun v => v.row i)) =
        (s0 :: rest).getD i s0 := by
    intro i hi
    obtain ⟨s, hs⟩ : ∃ s, (s0 :: rest).getD i s0 = s := ⟨_, rfl⟩
    have hsmem : s ∈ s0 :: rest := by
      rw [← hs, getD_get _ i s0 hi]
      exact List.get_mem _ i hi
    rw [hs]
    have hrows : (concatResult s0 rest sh).vals.map (fun v => v.row i) =
        s0._names.map fun k =>
          (⟨1 :: sh k, (s.getattrD k).data⟩ : NDArray) := by
      rw [hvals, List.map_map]
      apply List.map_congr_left
      intro k hk
      show (⟨(s0 :: rest).length :: 1 :: sh k,
        ((s0 :: rest).map fun s => (s.getattrD k).data).flatten⟩ :
        NDArray).row i = _
      have hchunks : ∀ x ∈ (s0 :: rest).map
          fun s => (s.getattrD k).data, x.length = (1 :: sh k).prod := by
        intro x hx
        obtain ⟨s', hs', rfl⟩ := List.mem_map.mp hx
        rw [List.prod_cons, Nat.one_mul]
        exact (hAll s' hs' k hk).2.2
      rw [row_of_flatten ((s0 :: rest).length) (1 :: sh k) _ hchunks i
        (by simpa using hi)]
      rw [getD_map_getD (s0 :: rest) _ i [] s0 hi, hs]
    rw [hrows, list_zip_map_self]
    have hsn : s._names = s0._names := hnames s hsmem
    have hswf : s._names = s._attr_dict.map Prod.fst := hwf s hsmem
    have hs1 : s._n_walkers = 1 := hn1 s hsmem
    have hattr : (s0._names.map fun k =>
        (k, (⟨1 :: sh k, (s.getattrD k).data⟩ : NDArray))) =
        s._attr_dict := by
      have hfst : s0._names = s._attr_dict.map Prod.fst := by
        rw [← hsn]
        exact hswf
      rw [hfst, List.map_map]
      have hpt : ∀ p ∈ s._attr_dict,
          ((fun k => (k, (⟨1 :: sh k, (s.getattrD k).data⟩ : NDArray))) ∘
            Prod.fst) p = p := by
        intro p hp
        have hndp : (s._attr_dict.map Prod.fst).Nodup := by
          rw [← hswf, hsn]
          exact hnd
        have hfind : s.lookup p.1 = some p.2 := by
          rw [BaseStates.lookup, find_self_of_nodup s._attr_dict hndp p hp]
          rfl
        have hk1 : p.1 ∈ s0._names := by
          rw [hfst]
          exact List.mem_map.mpr ⟨p, hp, rfl⟩
        have hgd : s.getattrD p.1 = p.2 := by
          rw [BaseStates.getattrD, hfind]
        have hshp : p.2.shape = 1 :: sh p.1 := by
          have h2 := (hAll s hsmem p.1 hk1).2.1
          rw [hgd] at h2
          exact h2
        show (p.1, (⟨1 :: sh p.1, (s.getattrD p.1).data⟩ : NDArray)) = p
        rw [hgd, ← hshp]
      calc s._attr_dict.map ((fun k =>
            (k, (⟨1 :: sh k, (s.getattrD k).data⟩ : NDArray))) ∘ Prod.fst)
          = s._attr_dict.map id := List.map_congr_left hpt
        _ = s._attr_dict := List.map_id _
    show BaseStates.mk _ _ 1 = s
    have heta : s = ⟨s._names, s._attr_dict, s._n_walkers⟩ := rfl
    rw [heta, BaseStates.mk.injEq]
    refine ⟨?_, hattr, hs1.symm⟩
    rw [map_fst_pair, ← hsn]
  rw [BaseStates.split_states, BaseStates.iteritems,
    if_neg (by rw [hcn]; simp)]
  rw [hcn, List.map_map]
  apply List.ext_get (by simp)
  intro i h1 h2
  have hi : i < (s0 :: rest).length := by simpa using h2
  rw [List.get_map]
  have hgr : (List.range (s0 :: rest).length).get
      ⟨i, by simpa using h1⟩ = i := by simp
  rw [Function.comp, hgr, hcnames]
  rw [key i hi, getD_get _ i s0 hi]

/-- Witness for `concat_then_split_recovers` at concrete inputs: two
batch-size-1 containers are concatenated and split back unchanged. -/
theorem concat_then_split_recovers_witness :
    ∃ c, BaseStates.concat_states [exampleSplitA, exampleSplitB] = .ok c ∧
      c.split_states = [exampleSplitA, exampleSplitB] := by
  apply concat_then_split_recovers exampleSplitA [exampleSplitB] exampleSh
  · decide
  · decide
  · decide
  · decide
  · intro s hs k hk
    have hs' : s = exampleSplitA ∨ s = exampleSplitB := by simpa using hs
    have hk' : k = "x" ∨ k = "r" := by
      simpa [exampleSplitA, BaseStates.init] using hk
    rcases hs' with rfl | rfl <;> rcases hk' with rfl | rfl <;>
      exact ⟨_, rfl, by decide, by decide⟩
